import Mathlib

set_option maxRecDepth 10000

/-!
Verification development for the `eol` repository's cache subsystem
(`cache.go`, `version.go`).

The Go code is shallowly embedded: the filesystem is an explicit state
(an association list of file paths to file data plus a list of existing
directories), wall-clock instants and durations are integers, and JSON
payloads are an inductive `Json` value type.  All definitions are
computable and structurally recursive so that concrete runs evaluate
inside the kernel.
-/

/-! ## String helpers

Lean core string functions are re-implemented on `List Char` so that all
definitions reduce structurally in the kernel.  Strings are treated as
their character lists; byte-level operations (MD5) use the UTF-8
encoding of the characters, matching Go's `[]byte(s)`.
-/

/-- `strings.HasPrefix` on character lists. -/
def strStartsWith (s pre : String) : Bool :=
  pre.data.isPrefixOf s.data

/-- `strings.HasSuffix` on character lists. -/
def strEndsWith (s suf : String) : Bool :=
  suf.data.reverse.isPrefixOf s.data.reverse

/-- `s[:n]` / `String.take` on character lists. -/
def strTake (s : String) (n : Nat) : String :=
  ⟨s.data.take n⟩

/-- `s[n:]` / `String.drop` on character lists. -/
def strDrop (s : String) (n : Nat) : String :=
  ⟨s.data.drop n⟩

/-- Does `sub` occur as a contiguous sublist of `l`? -/
def containsSubAux (sub : List Char) : List Char → Bool
  | [] => sub.isPrefixOf []
  | a :: t => sub.isPrefixOf (a :: t) || containsSubAux sub t

/-- `strings.Contains` (substring containment) on character lists. -/
def strContainsSub (s sub : String) : Bool :=
  containsSubAux sub.data s.data

/-- `strings.Join(params, "|")`, as used for cache-key parameters. -/
def joinPipe : List String → String
  | [] => ""
  | [x] => x
  | x :: xs => x ++ "|" ++ joinPipe xs

/-- Characters trimmed by Go's `strings.TrimSpace` (Unicode White_Space,
of which only the ASCII/Latin-1 members can occur in version strings). -/
def isSpaceChar (c : Char) : Bool :=
  c == ' ' || c == '\t' || c == '\n' || c == '\x0b' || c == '\x0c' || c == '\r' ||
    c.toNat == 0x85 || c.toNat == 0xA0

/-- `strings.TrimSpace`. -/
def trimSpace (s : String) : String :=
  ⟨((s.data.dropWhile isSpaceChar).reverse.dropWhile isSpaceChar).reverse⟩

/-- `strings.ReplaceAll(s, "/", "-")`: the pattern is a single character,
so the replacement is a character map. -/
def replaceSlashDash (s : String) : String :=
  ⟨s.data.map fun c => if c == '/' then '-' else c⟩

/-- `filepath.Base`: strip trailing slashes, then keep the part after the
last slash; `""` gives `"."` and an all-slash path gives `"/"`. -/
def pathBase (p : String) : String :=
  if p == "" then "."
  else
    match p.data.reverse.dropWhile (· == '/') with
    | [] => "/"
    | rest => ⟨(rest.takeWhile (· != '/')).reverse⟩

/-! ## MD5 (as used by `generateCacheKey`)

A direct implementation of RFC 1321 over byte lists, with 32-bit words
represented as `Nat` values masked to `2^32`.  `md5hex` mirrors Go's
`fmt.Sprintf("%x", md5.Sum(data))` (lowercase hex of the 16 digest
bytes). -/

/-- UTF-8 encoding of a single code point, as Go's `[]byte(string)`. -/
def utf8Bytes (c : Nat) : List Nat :=
  if c < 0x80 then [c]
  else if c < 0x800 then
    [0xC0 ||| (c >>> 6), 0x80 ||| (c &&& 0x3F)]
  else if c < 0x10000 then
    [0xE0 ||| (c >>> 12), 0x80 ||| ((c >>> 6) &&& 0x3F), 0x80 ||| (c &&& 0x3F)]
  else
    [0xF0 ||| (c >>> 18), 0x80 ||| ((c >>> 12) &&& 0x3F),
      0x80 ||| ((c >>> 6) &&& 0x3F), 0x80 ||| (c &&& 0x3F)]

/-- The bytes of a string (UTF-8). -/
def strBytes (s : String) : List Nat :=
  (s.data.map fun c => utf8Bytes c.toNat).flatten

/-- The 64 MD5 sine-derived round constants. -/
def md5K : List Nat :=
  [0xd76aa478, 0xe8c7b756, 0x242070db, 0xc1bdceee,
   0xf57c0faf, 0x4787c62a, 0xa8304613, 0xfd469501,
   0x698098d8, 0x8b44f7af, 0xffff5bb1, 0x895cd7be,
   0x6b901122, 0xfd987193, 0xa679438e, 0x49b40821,
   0xf61e2562, 0xc040b340, 0x265e5a51, 0xe9b6c7aa,
   0xd62f105d, 0x02441453, 0xd8a1e681, 0xe7d3fbc8,
   0x21e1cde6, 0xc33707d6, 0xf4d50d87, 0x455a14ed,
   0xa9e3e905, 0xfcefa3f8, 0x676f02d9, 0x8d2a4c8a,
   0xfffa3942, 0x8771f681, 0x6d9d6122, 0xfde5380c,
   0xa4beea44, 0x4bdecfa9, 0xf6bb4b60, 0xbebfbc70,
   0x289b7ec6, 0xeaa127fa, 0xd4ef3085, 0x04881d05,
   0xd9d4d039, 0xe6db99e5, 0x1fa27cf8, 0xc4ac5665,
   0xf4292244, 0x432aff97, 0xab9423a7, 0xfc93a039,
   0x655b59c3, 0x8f0ccc92, 0xffeff47d, 0x85845dd1,
   0x6fa87e4f, 0xfe2ce6e0, 0xa3014314, 0x4e0811a1,
   0xf7537e82, 0xbd3af235, 0x2ad7d2bb, 0xeb86d391]

/-- The 64 per-round left-rotation amounts. -/
def md5S : List Nat :=
  [7, 12, 17, 22, 7, 12, 17, 22, 7, 12, 17, 22, 7, 12, 17, 22,
   5, 9, 14, 20, 5, 9, 14, 20, 5, 9, 14, 20, 5, 9, 14, 20,
   4, 11, 16, 23, 4, 11, 16, 23, 4, 11, 16, 23, 4, 11, 16, 23,
   6, 10, 15, 21, 6, 10, 15, 21, 6, 10, 15, 21, 6, 10, 15, 21]

/-- Mask to 32 bits. -/
def m32 (x : Nat) : Nat := x &&& 0xFFFFFFFF

/-- 32-bit left rotation. -/
def rotl32 (x n : Nat) : Nat :=
  m32 ((x <<< n) ||| (x >>> (32 - n)))

/-- 32-bit complement. -/
def not32 (x : Nat) : Nat := 0xFFFFFFFF ^^^ x

/-- MD5 padding: `0x80`, zeros to 56 mod 64, then the 64-bit
little-endian bit length. -/
def md5Pad (msg : List Nat) : List Nat :=
  let len := msg.length
  let padZeros := (119 - len % 64) % 64
  let bitLen := (len * 8) % (2 ^ 64)
  msg ++ [0x80] ++ List.replicate padZeros 0 ++
    [m32 bitLen &&& 0xFF, (bitLen >>> 8) &&& 0xFF, (bitLen >>> 16) &&& 0xFF,
     (bitLen >>> 24) &&& 0xFF, (bitLen >>> 32) &&& 0xFF, (bitLen >>> 40) &&& 0xFF,
     (bitLen >>> 48) &&& 0xFF, (bitLen >>> 56) &&& 0xFF]

/-- The 16 little-endian 32-bit words of one 64-byte block. -/
def md5Words (block : List Nat) : List Nat :=
  (List.range 16).map fun i =>
    block.getD (4 * i) 0 + 256 * block.getD (4 * i + 1) 0 +
      65536 * block.getD (4 * i + 2) 0 + 16777216 * block.getD (4 * i + 3) 0

/-- One of the 64 MD5 rounds, acting on the `(a, b, c, d)` state. -/
def md5Round (w : List Nat) (st : Nat × Nat × Nat × Nat) (i : Nat) :
    Nat × Nat × Nat × Nat :=
  let (a, b, c, d) := st
  let f :=
    if i < 16 then (b &&& c) ||| (not32 b &&& d)
    else if i < 32 then (d &&& b) ||| (not32 d &&& c)
    else if i < 48 then b ^^^ c ^^^ d
    else c ^^^ (b ||| not32 d)
  let g :=
    if i < 16 then i
    else if i < 32 then (5 * i + 1) % 16
    else if i < 48 then (3 * i + 5) % 16
    else (7 * i) % 16
  let f := m32 (f + a + md5K.getD i 0 + w.getD g 0)
  (d, m32 (b + rotl32 f (md5S.getD i 0)), b, c)

/-- Process one 64-byte block into the running state. -/
def md5Block (st : Nat × Nat × Nat × Nat) (block : List Nat) :
    Nat × Nat × Nat × Nat :=
  let (a0, b0, c0, d0) := st
  let w := md5Words block
  let (a, b, c, d) := (List.range 64).foldl (md5Round w) (a0, b0, c0, d0)
  (m32 (a0 + a), m32 (b0 + b), m32 (c0 + c), m32 (d0 + d))

/-- Split into 64-byte chunks; the fuel argument (any bound on the list
length) keeps the recursion structural. -/
def chunks64 : Nat → List Nat → List (List Nat)
  | _, [] => []
  | 0, _ => []
  | fuel + 1, l => l.take 64 :: chunks64 fuel (l.drop 64)

/-- Little-endian bytes of a 32-bit word. -/
def le32Bytes (x : Nat) : List Nat :=
  [x &&& 0xFF, (x >>> 8) &&& 0xFF, (x >>> 16) &&& 0xFF, (x >>> 24) &&& 0xFF]

/-- `md5.Sum`: the 16 digest bytes of a byte-list message. -/
def md5Bytes (msg : List Nat) : List Nat :=
  let padded := md5Pad msg
  let blocks := chunks64 padded.length padded
  let (a, b, c, d) :=
    blocks.foldl md5Block (0x67452301, 0xefcdab89, 0x98badcfe, 0x10325476)
  le32Bytes a ++ le32Bytes b ++ le32Bytes c ++ le32Bytes d

/-- Lowercase hex digit. -/
def hexDigit (n : Nat) : Char :=
  if n < 10 then Char.ofNat (48 + n) else Char.ofNat (87 + n)

/-- `fmt.Sprintf("%x", md5.Sum([]byte(s)))`. -/
def md5hex (s : String) : String :=
  ⟨(md5Bytes (strBytes s)).flatMap fun b => [hexDigit (b / 16), hexDigit (b % 16)]⟩

/-! ## `version.go`: version normalization

`normalizeVersion` uses two anchored regular expressions; both are
implemented as deterministic character-list parsers (the patterns are
unambiguous: `\d+` cannot overlap `\.`). -/

/-- ASCII digit test (`\d`). -/
def isDigitChar (c : Char) : Bool :=
  48 ≤ c.toNat && c.toNat ≤ 57

/-- `[0-9A-Za-z\-\.]`, the character class of semver pre-release and
build suffixes. -/
def isSemverSuffixChar (c : Char) : Bool :=
  isDigitChar c || (65 ≤ c.toNat && c.toNat ≤ 90) || (97 ≤ c.toNat && c.toNat ≤ 122) ||
    c == '-' || c == '.'

/-- Split a leading run of digits. -/
def parseDigits (l : List Char) : List Char × List Char :=
  (l.takeWhile isDigitChar, l.dropWhile isDigitChar)

/-- `majorMinorPattern`: `^(\d+)\.(\d+)$`. -/
def majorMinorMatch (s : String) : Bool :=
  let (d1, r1) := parseDigits s.data
  match r1 with
  | '.' :: r2 =>
    let (d2, r3) := parseDigits r2
    !d1.isEmpty && !d2.isEmpty && r3.isEmpty
  | _ => false

/-- The optional `(?:-[0-9A-Za-z\-\.]+)?(?:\+[0-9A-Za-z\-\.]+)?` tail of
`semverPattern`.  Neither class contains `+`, so the pre-release part is
exactly the run before the first `+`. -/
def semverTailOk (l : List Char) : Bool :=
  match l with
  | [] => true
  | '+' :: build => !build.isEmpty && build.all isSemverSuffixChar
  | '-' :: rest =>
    let pre := rest.takeWhile (· != '+')
    let after := rest.dropWhile (· != '+')
    !pre.isEmpty && pre.all isSemverSuffixChar &&
      (match after with
       | [] => true
       | '+' :: build => !build.isEmpty && build.all isSemverSuffixChar
       | _ => false)
  | _ => false

/-- `semverPattern.FindStringSubmatch`: on a match of
`^(\d+)\.(\d+)\.(\d+)(?:-…)?(?:\+…)?$` return the `(major, minor)`
groups. -/
def semverExtract (s : String) : Option (String × String) :=
  let (d1, r1) := parseDigits s.data
  match r1 with
  | '.' :: r2 =>
    let (d2, r3) := parseDigits r2
    (match r3 with
     | '.' :: r4 =>
       let (d3, r5) := parseDigits r4
       if !d1.isEmpty && !d2.isEmpty && !d3.isEmpty && semverTailOk r5 then
         some (⟨d1⟩, ⟨d2⟩)
       else none
     | _ => none)
  | _ => none

/-- `normalizeVersion` (`version.go`): trim; keep `x.y` as is; shorten a
semantic version `x.y.z[-pre][+build]` to `x.y`; otherwise return the
trimmed input unchanged. -/
def normalizeVersion (version : String) : String :=
  let ver := trimSpace version
  if majorMinorMatch ver then ver
  else
    match semverExtract ver with
    | some (a, b) => a ++ "." ++ b
    | none => ver

/-! ## JSON values

Go's `encoding/json` decodes into `map[string]any` / `[]any`; the model
is an inductive value type whose objects are association lists keyed by
field name (first binding wins, as in a Go map there is at most one
binding per key).  Numbers carry integers: every number the cache code
produces (`total`, `schema_version` inputs in the claims) is integral,
and no claim performs non-integral arithmetic. -/

inductive Json where
  | null
  | bool (b : Bool)
  | num (n : Int)
  | str (s : String)
  | arr (xs : List Json)
  | obj (fields : List (String × Json))

/-- Object field lookup (`m["k"]` with present test). -/
def Json.getField : Json → String → Option Json
  | .obj fields, k => fields.lookup k
  | _, _ => none

/-- Go map access `m["k"]` without a comma-ok: a missing key yields the
nil interface, modelled by `Json.null`. -/
def fieldD (fields : List (String × Json)) (k : String) : Json :=
  (fields.lookup k).getD Json.null

/-- Type assertion `.(map[string]any)`; also models `json.Unmarshal`
into `map[string]any`, which fails unless the payload is an object. -/
def asObj : Json → Option (List (String × Json))
  | .obj fields => some fields
  | _ => none

/-- Type assertion `.([]any)`. -/
def asArr : Json → Option (List Json)
  | .arr xs => some xs
  | _ => none

/-- `fmt.Sprintf("%s", v)` for an `any` decoded from JSON.  The cache
code only formats product names, which are strings; the remaining cases
model Go's verbs loosely (`<nil>` for a nil interface, `%!s(float64=…)`
for numbers) and are never exercised by the claims. -/
def goFmtAny : Json → String
  | .str s => s
  | .null => "<nil>"
  | .bool b => if b then "true" else "false"
  | .num n => "%!s(float64=" ++ toString n ++ ")"
  | .arr _ => "[…]"
  | .obj _ => "map[…]"

/-! ## Cache data model (`cache.go`)

Time instants and durations are integers (Go nanoseconds);
`time.Now().After(t)` is strict `>`.  The filesystem is explicit state:
an association list from absolute file paths to file data plus the list
of directories that exist.  A file's `parsed` component is the result of
`json.Unmarshal` into `CacheEntry`: `none` models an unreadable or
corrupt file (both produce the same behaviour everywhere in
`cache.go`). -/

/-- `CacheEntry`: the on-disk envelope. -/
structure CacheEntry where
  timestamp : Int
  expiresAt : Int
  endpoint : String
  parameters : String
  data : Json

/-- One file on disk: its byte size and its content as seen through
`json.Unmarshal` into `CacheEntry`. -/
structure FileData where
  size : Nat
  parsed : Option CacheEntry

/-- The filesystem state. -/
structure FS where
  files : List (String × FileData)
  dirs : List String

/-- `CacheManager` configuration fields. -/
structure CacheManager where
  baseDir : String
  baseURL : String
  enabled : Bool
  defaultTTL : Int
  fullTTL : Int

/-- `CacheStats`. -/
structure CacheStats where
  cacheDir : String
  defaultTTL : Int
  fullTTL : Int
  totalSize : Nat
  totalFiles : Nat
  expiredFiles : Nat
  validFiles : Nat
  enabled : Bool

/-- `cacheExt` constant. -/
def cacheExt : String := ".eol_cache.json"

/-- `os.Stat`/`os.ReadFile` on the modelled filesystem. -/
def lookupFile (fs : FS) (path : String) : Option FileData :=
  fs.files.lookup path

/-- `os.Remove`. -/
def removeFile (fs : FS) (path : String) : FS :=
  { fs with files := fs.files.filter fun kv => kv.1 != path }

/-- `os.WriteFile` (create or truncate). -/
def writeFile (fs : FS) (path : String) (fd : FileData) : FS :=
  { fs with files := (path, fd) :: fs.files.filter fun kv => kv.1 != path }

/-- `ensureCacheDir` = `os.MkdirAll(cm.baseDir, dirPerm)`: creates the
cache directory if absent, touching nothing else. -/
def ensureCacheDir (cm : CacheManager) (fs : FS) : FS :=
  if fs.dirs.contains cm.baseDir then fs
  else { fs with dirs := cm.baseDir :: fs.dirs }

/-- `generateCacheKey`: strip a leading slash, turn the remaining
slashes into dashes (empty becomes `"index"`), and for a non-empty
parameter list append the first 8 hex chars of the MD5 of the
pipe-joined parameters. -/
def generateCacheKey (endpoint : String) (params : List String) : String :=
  let e1 := if strStartsWith endpoint "/" then strDrop endpoint 1 else endpoint
  let e2 := replaceSlashDash e1
  let e3 := if e2 == "" then "index" else e2
  if params.isEmpty then e3 ++ cacheExt
  else
    let paramStr := joinPipe params
    let hash := md5hex paramStr
    e3 ++ "-" ++ strTake hash 8 ++ cacheExt

/-- `getCacheFilePath` = `filepath.Join(cm.baseDir, key)` for a clean,
non-empty `baseDir` and slash-free key. -/
def getCacheFilePath (cm : CacheManager) (key : String) : String :=
  cm.baseDir ++ "/" ++ key

/-- `isFullEndpoint`. -/
def isFullEndpoint (endpoint : String) : Bool :=
  endpoint == "/products/full" || endpoint == "products/full"

/-- `MustUseCache`. -/
def CacheManager.MustUseCache (_cm : CacheManager) (endpoint : String) : Bool :=
  isFullEndpoint endpoint

/-- `getRawCacheByKey`: stat, read and decode the entry file; an absent,
unreadable or corrupt file is a miss; an expired entry is deleted and is
a miss; otherwise the stored payload is returned. -/
def getRawCacheByKey (cm : CacheManager) (now : Int) (fs : FS) (cacheKey : String) :
    Option Json × FS :=
  let filePath := getCacheFilePath cm cacheKey
  match lookupFile fs filePath with
  | none => (none, fs)
  | some fd =>
    match fd.parsed with
    | none => (none, fs)
    | some entry =>
      if now > entry.expiresAt then (none, removeFile fs filePath)
      else (some entry.data, fs)

/-! ## Extraction strategy library

Each extractor is a pure function from the cached payload to an optional
derived payload; `none` models Go's `found = false`.  In this model
`json.Marshal` of the constructed response cannot fail, so the
marshal-error early returns of the source are unreachable. -/

/-- The product-summary map built by the products-list extractors:
`name`, `label`, `category`, a synthesized `uri`, plus `aliases` and
`tags` when those keys are present in the catalog item.  The manager's
base URL is the only `CacheManager` field the extractors read, so it is
passed directly. -/
def summaryFields (baseURL : String) (pf : List (String × Json)) :
    List (String × Json) :=
  [("name", fieldD pf "name"), ("label", fieldD pf "label"),
   ("category", fieldD pf "category"),
   ("uri", .str (baseURL ++ "/products/" ++ goFmtAny (fieldD pf "name")))] ++
  (match pf.lookup "aliases" with
   | some v => [("aliases", v)]
   | none => []) ++
  (match pf.lookup "tags" with
   | some v => [("tags", v)]
   | none => [])

/-- Skip non-object catalog items (`continue`), summarize the rest. -/
def summaryOfProduct (baseURL : String) (p : Json) : Option Json :=
  match p with
  | .obj pf => some (.obj (summaryFields baseURL pf))
  | _ => none

/-- `extractProductsFromFull`. -/
def extractProductsFromFull (baseURL : String) (data : Json) : Option Json :=
  (asObj data).bind fun fields =>
  (asArr (fieldD fields "result")).bind fun result =>
  let products := result.filterMap (summaryOfProduct baseURL)
  some (.obj [("schema_version", fieldD fields "schema_version"),
              ("total", .num (Int.ofNat products.length)),
              ("result", .arr products)])

/-- One step of the product scan: an object item whose `name` field is
the sought string (anything else is a `continue`). -/
def productMatch (product : String) (p : Json) : Option (List (String × Json)) :=
  match p with
  | .obj pf =>
    (match pf.lookup "name" with
     | some (.str name) => if name == product then some pf else none
     | _ => none)
  | _ => none

/-- The product-scanning loop of `extractProductFromFull`: the first
matching item is wrapped, with a fixed `last_modified` value. -/
def findProductAux (sv : Json) (product : String) : List Json → Option Json
  | [] => none
  | p :: rest =>
    match productMatch product p with
    | some pf =>
      some (.obj [("schema_version", sv),
                  ("last_modified", .str "2025-01-11T00:00:00Z"),
                  ("result", .obj pf)])
    | none => findProductAux sv product rest

/-- `extractProductFromFull`. -/
def extractProductFromFull (product : String) (data : Json) : Option Json :=
  (asObj data).bind fun fields =>
  (asArr (fieldD fields "result")).bind fun result =>
  findProductAux (fieldD fields "schema_version") product result

/-- One step of the release scan: an object item whose `name` equals the
requested release, exactly or after `normalizeVersion` (anything else is
a `continue`). -/
def releaseMatch (release : String) (r : Json) : Option (List (String × Json)) :=
  match r with
  | .obj rf =>
    (match rf.lookup "name" with
     | some (.str name) =>
       if name == release || name == normalizeVersion release then some rf else none
     | _ => none)
  | _ => none

/-- The release-scanning loop shared by `extractReleaseFromProduct` and
`extractReleaseFromFull`: the first matching item is wrapped. -/
def findReleaseAux (sv : Json) (release : String) : List Json → Option Json
  | [] => none
  | r :: rest =>
    match releaseMatch release r with
    | some rf => some (.obj [("schema_version", sv), ("result", .obj rf)])
    | none => findReleaseAux sv release rest

/-- `extractReleaseFromProduct`: the cached single-product response has
an object `result` carrying a `releases` array. -/
def extractReleaseFromProduct (release : String) (data : Json) : Option Json :=
  (asObj data).bind fun fields =>
  (asObj (fieldD fields "result")).bind fun result =>
  (asArr (fieldD result "releases")).bind fun releases =>
  findReleaseAux (fieldD fields "schema_version") release releases

/-- One step of the product loop of `extractReleaseFromFull`: a product
item that matches by `name` AND carries a `releases` array.  A matching
product without one is skipped (`continue`), like any non-matching
item. -/
def productReleasesMatch (product : String) (p : Json) : Option (List Json) :=
  match p with
  | .obj pf =>
    (match pf.lookup "name" with
     | some (.str name) =>
       if name == product then
         (match pf.lookup "releases" with
          | some (.arr releases) => some releases
          | _ => none)
       else none
     | _ => none)
  | _ => none

/-- The product loop of `extractReleaseFromFull`: once a matching
product with a release array is found, the scan commits to it (`return`
after the inner loop). -/
def findProductReleaseAux (sv : Json) (product release : String) :
    List Json → Option Json
  | [] => none
  | p :: rest =>
    match productReleasesMatch product p with
    | some releases => findReleaseAux sv release releases
    | none => findProductReleaseAux sv product release rest

/-- `extractReleaseFromFull`. -/
def extractReleaseFromFull (product release : String) (data : Json) : Option Json :=
  (asObj data).bind fun fields =>
  (asArr (fieldD fields "result")).bind fun result =>
  findProductReleaseAux (fieldD fields "schema_version") product release result

/-- Set insertion in first-seen order.  The Go source collects the
values in a `map[string]bool` and iterates it in unspecified order; the
model fixes first-seen order (the spec guarantees no ordering, and no
claim depends on one). -/
def insertUnique (x : String) (l : List String) : List String :=
  if l.contains x then l else l ++ [x]

/-- The distinct non-empty `category` strings of the catalog items. -/
def collectCategories (result : List Json) : List String :=
  result.foldl
    (fun acc p =>
      match p with
      | .obj pf =>
        (match pf.lookup "category" with
         | some (.str c) => if c != "" then insertUnique c acc else acc
         | _ => acc)
      | _ => acc)
    []

/-- `extractCategoriesFromFull`. -/
def extractCategoriesFromFull (baseURL : String) (data : Json) : Option Json :=
  (asObj data).bind fun fields =>
  (asArr (fieldD fields "result")).bind fun result =>
  let categories := (collectCategories result).map fun cat =>
    Json.obj [("name", .str cat), ("uri", .str (baseURL ++ "/categories/" ++ cat))]
  some (.obj [("schema_version", fieldD fields "schema_version"),
              ("total", .num (Int.ofNat categories.length)),
              ("result", .arr categories)])

/-- `extractProductsByCategoryFromFull`: keep object items whose
`category` is exactly the requested string. -/
def extractProductsByCategoryFromFull (baseURL : String) (category : String)
    (data : Json) : Option Json :=
  (asObj data).bind fun fields =>
  (asArr (fieldD fields "result")).bind fun result =>
  let products := result.filterMap fun p =>
    match p with
    | .obj pf =>
      (match pf.lookup "category" with
       | some (.str c) => if c == category then some (Json.obj (summaryFields baseURL pf)) else none
       | _ => none)
    | _ => none
  some (.obj [("schema_version", fieldD fields "schema_version"),
              ("total", .num (Int.ofNat products.length)),
              ("result", .arr products)])

/-- The distinct non-empty tag strings across the catalog items'
`tags` arrays. -/
def collectTags (result : List Json) : List String :=
  result.foldl
    (fun acc p =>
      match p with
      | .obj pf =>
        (match pf.lookup "tags" with
         | some (.arr tags) =>
           tags.foldl
             (fun acc2 t =>
               match t with
               | .str tag => if tag != "" then insertUnique tag acc2 else acc2
               | _ => acc2)
             acc
         | _ => acc)
      | _ => acc)
    []

/-- `extractTagsFromFull`. -/
def extractTagsFromFull (baseURL : String) (data : Json) : Option Json :=
  (asObj data).bind fun fields =>
  (asArr (fieldD fields "result")).bind fun result =>
  let tags := (collectTags result).map fun tag =>
    Json.obj [("name", .str tag), ("uri", .str (baseURL ++ "/tags/" ++ tag))]
  some (.obj [("schema_version", fieldD fields "schema_version"),
              ("total", .num (Int.ofNat tags.length)),
              ("result", .arr tags)])

/-- Does a catalog item carry the requested tag? -/
def productHasTag (pf : List (String × Json)) (tag : String) : Bool :=
  match pf.lookup "tags" with
  | some (.arr tags) => tags.any fun t =>
      match t with
      | .str productTag => productTag == tag
      | _ => false
  | _ => false

/-- `extractProductsByTagFromFull`. -/
def extractProductsByTagFromFull (baseURL : String) (tag : String)
    (data : Json) : Option Json :=
  (asObj data).bind fun fields =>
  (asArr (fieldD fields "result")).bind fun result =>
  let products := result.filterMap fun p =>
    match p with
    | .obj pf => if productHasTag pf tag then some (Json.obj (summaryFields baseURL pf)) else none
    | _ => none
  some (.obj [("schema_version", fieldD fields "schema_version"),
              ("total", .num (Int.ofNat products.length)),
              ("result", .arr products)])

/-! ## Strategy orchestration

`CacheStrategy.ExtractFunc` closures are defunctionalized into an
`Extractor` tag.  Every closure built by `buildCacheStrategies` ignores
the `params` argument that `tryStrategies` forwards (including
`extractExact`), so `applyExtractor` takes only the cached payload. -/

inductive Extractor where
  | exact
  | productsFromFull
  | productFromFull (product : String)
  | releaseFromProduct (release : String)
  | releaseFromFull (product release : String)
  | categoriesFromFull
  | productsByCategoryFromFull (category : String)
  | tagsFromFull
  | productsByTagFromFull (tag : String)

/-- Run a strategy's extraction function on a cached payload.
`Extractor.exact` is `extractExact`: the data as-is, always found. -/
def applyExtractor (cm : CacheManager) : Extractor → Json → Option Json
  | .exact, data => some data
  | .productsFromFull, data => extractProductsFromFull cm.baseURL data
  | .productFromFull p, data => extractProductFromFull p data
  | .releaseFromProduct rel, data => extractReleaseFromProduct rel data
  | .releaseFromFull p rel, data => extractReleaseFromFull p rel data
  | .categoriesFromFull, data => extractCategoriesFromFull cm.baseURL data
  | .productsByCategoryFromFull cat, data => extractProductsByCategoryFromFull cm.baseURL cat data
  | .tagsFromFull, data => extractTagsFromFull cm.baseURL data
  | .productsByTagFromFull tag, data => extractProductsByTagFromFull cm.baseURL tag data

/-- `buildCacheStrategies`: the ordered candidate list for an endpoint,
most specific first.  Mirrors the Go `switch` case by case, including
the parameter-list conventions (`params[0]` the product, `params[1]` the
category/tag) and the params-free key of the default branch. -/
def buildCacheStrategies (endpoint : String) (params : List String) :
    List (String × Extractor) :=
  if endpoint == "/products" then
    [(generateCacheKey "/products" [], .exact),
     (generateCacheKey "/products/full" [], .productsFromFull)]
  else if strStartsWith endpoint "/products/" && params.length ≥ 1 &&
      !strContainsSub endpoint "/releases/" then
    let p := params.headD ""
    [(generateCacheKey ("/products/" ++ p) [p], .exact),
     (generateCacheKey "/products/full" [], .productFromFull p)]
  else if strStartsWith endpoint "/products/" && strContainsSub endpoint "/releases/" &&
      params.length ≥ 2 then
    let p := params.headD ""
    let rel := (params.drop 1).headD ""
    [(generateCacheKey ("/products/" ++ p ++ "/releases/" ++ rel) [p, rel], .exact),
     (generateCacheKey ("/products/" ++ p) [p], .releaseFromProduct rel),
     (generateCacheKey "/products/full" [], .releaseFromFull p rel)]
  else if endpoint == "/categories" then
    [(generateCacheKey "/categories" [], .exact),
     (generateCacheKey "/products/full" [], .categoriesFromFull)]
  else if strStartsWith endpoint "/categories/" && params.length ≥ 2 then
    let cat := (params.drop 1).headD ""
    [(generateCacheKey ("/categories/" ++ cat) ["category", cat], .exact),
     (generateCacheKey "/products/full" [], .productsByCategoryFromFull cat)]
  else if endpoint == "/tags" then
    [(generateCacheKey "/tags" [], .exact),
     (generateCacheKey "/products/full" [], .tagsFromFull)]
  else if strStartsWith endpoint "/tags/" && params.length ≥ 2 then
    let tag := (params.drop 1).headD ""
    [(generateCacheKey ("/tags/" ++ tag) ["tag", tag], .exact),
     (generateCacheKey "/products/full" [], .productsByTagFromFull tag)]
  else
    [(generateCacheKey endpoint [], .exact)]

/-- `tryStrategies`: first candidate that exists, is unexpired and whose
extractor succeeds wins; lazy-expiry deletions performed by failed
probes persist. -/
def tryStrategies (cm : CacheManager) (now : Int) (fs : FS) :
    List (String × Extractor) → Option Json × FS
  | [] => (none, fs)
  | (key, ex) :: rest =>
    match getRawCacheByKey cm now fs key with
    | (some cached, fs1) =>
      (match applyExtractor cm ex cached with
       | some data => (some data, fs1)
       | none => tryStrategies cm now fs1 rest)
    | (none, fs1) => tryStrategies cm now fs1 rest

/-- `Get`: the disabled-cache gate (overridden for the full-catalog
endpoint class), then the strategy cascade. -/
def CacheManager.Get (cm : CacheManager) (now : Int) (fs : FS) (endpoint : String)
    (params : List String) : Option Json × FS :=
  if !cm.enabled && !isFullEndpoint endpoint then (none, fs)
  else tryStrategies cm now fs (buildCacheStrategies endpoint params)

/-- Byte size recorded for a written entry file.  On disk this is the
length of the pretty-printed envelope; no claim constrains the size of a
file written by `Set` (sizes only enter `GetStats.TotalSize`, which the
claims leave to the initial filesystem state), so the model does not
re-implement Go's serializer and charges a nominal size instead. -/
def writtenFileSize (entry : CacheEntry) : Nat :=
  entry.endpoint.length + entry.parameters.length + 64

/-- `Set`: gate as in `Get`; ensure the directory; pick the endpoint
class's TTL; write a fresh complete envelope under the endpoint's own
key.  Serialization and file writes cannot fail in the model, so the
result is the new filesystem. -/
def CacheManager.Set (cm : CacheManager) (now : Int) (fs : FS) (endpoint : String)
    (data : Json) (params : List String) : FS :=
  if !cm.enabled && !isFullEndpoint endpoint then fs
  else
    let fs1 := ensureCacheDir cm fs
    let ttl := if isFullEndpoint endpoint then cm.fullTTL else cm.defaultTTL
    let entry : CacheEntry :=
      { timestamp := now, expiresAt := now + ttl, endpoint := endpoint,
        parameters := joinPipe params, data := data }
    let key := generateCacheKey endpoint params
    writeFile fs1 (getCacheFilePath cm key) { size := writtenFileSize entry, parsed := some entry }

/-- The `Clear` refusal condition (`errRefusingToClear`). -/
inductive GoError where
  | refusingToClear (dirName : String)

/-- Does `filepath.Glob(baseDir ++ "/*" ++ cacheExt)` match this path?
`*` matches any run of non-separator characters, so: a direct child of
`baseDir` whose name ends in the cache extension.  (Glob metacharacters
inside `baseDir` itself are not modelled; the directory name is taken
literally.) -/
def isDirectCacheEntry (dir path : String) : Bool :=
  strStartsWith path (dir ++ "/") &&
  (let name := strDrop path (dir ++ "/").length
   !name.data.contains '/' && strEndsWith name cacheExt)

/-- `Clear`: refuse unless the directory's base name is allow-listed;
otherwise remove exactly the glob-matched entry files. -/
def CacheManager.Clear (cm : CacheManager) (fs : FS) : Option GoError × FS :=
  let allowedDirs := [".eol-cache", "eol-cache", "eol"]
  let dirName := pathBase cm.baseDir
  if !allowedDirs.contains dirName then (some (.refusingToClear dirName), fs)
  else
    (none, { fs with files := fs.files.filter fun kv => !isDirectCacheEntry cm.baseDir kv.1 })

/-- The directory listing used by `GetStats`: names and data of the
files directly inside `dir` (`os.ReadDir`; subdirectories, which the
scan would skip via `IsDir`, are not part of `FS.files`). -/
def dirEntriesNamed (fs : FS) (dir : String) : List (String × FileData) :=
  fs.files.filterMap fun kv =>
    if strStartsWith kv.1 (dir ++ "/") then
      let name := strDrop kv.1 (dir ++ "/").length
      if name.data.contains '/' then none else some (name, kv.2)
    else none

/-- One scan step of `GetStats`: skip names without the `.json` suffix;
count and size every remaining file; tally only decodable entries as
expired or valid. -/
def statsStep (now : Int) (stats : CacheStats) (e : String × FileData) : CacheStats :=
  if !strEndsWith e.1 ".json" then stats
  else
    let stats := { stats with totalFiles := stats.totalFiles + 1,
                              totalSize := stats.totalSize + e.2.size }
    match e.2.parsed with
    | none => stats
    | some entry =>
      if now > entry.expiresAt then { stats with expiredFiles := stats.expiredFiles + 1 }
      else { stats with validFiles := stats.validFiles + 1 }

/-- `GetStats`: ensure the directory exists, then scan it. -/
def CacheManager.GetStats (cm : CacheManager) (now : Int) (fs : FS) :
    CacheStats × FS :=
  let fs1 := ensureCacheDir cm fs
  let init : CacheStats :=
    { cacheDir := cm.baseDir, defaultTTL := cm.defaultTTL, fullTTL := cm.fullTTL,
      totalSize := 0, totalFiles := 0, expiredFiles := 0, validFiles := 0,
      enabled := cm.enabled }
  ((dirEntriesNamed fs1 cm.baseDir).foldl (statsStep now) init, fs1)

/-! ## Derived predicates used in theorem statements -/

/-- The `(endpoint, params)` pair is canonical: the most-specific
candidate of the strategy list probes exactly the key `Set` writes for
the same pair.  This holds for all call shapes the client layer uses for
derivable endpoints (`/products/{p}` with `[p]`, `/categories/{c}` with
`["category", c]`, …) but fails, e.g., for the default branch with a
non-empty parameter list. -/
def canonicalQuery (endpoint : String) (params : List String) : Prop :=
  (buildCacheStrategies endpoint params).head?.map Prod.fst =
    some (generateCacheKey endpoint params)

/-- The TTL `Set` assigns to an endpoint: the fixed full-catalog TTL for
the always-cached class, the configured default otherwise. -/
def ttlFor (cm : CacheManager) (endpoint : String) : Int :=
  if isFullEndpoint endpoint then cm.fullTTL else cm.defaultTTL

/-- A scanned file's name carries the `.json` suffix `GetStats` filters on. -/
def isJsonNamed (e : String × FileData) : Bool :=
  strEndsWith e.1 ".json"

/-- A scanned file decodes to an entry whose `expiresAt` is strictly past. -/
def entryExpired (now : Int) (e : String × FileData) : Bool :=
  match e.2.parsed with
  | some en => decide (now > en.expiresAt)
  | none => false

/-- A scanned file decodes to an entry that is not yet expired. -/
def entryValid (now : Int) (e : String × FileData) : Bool :=
  match e.2.parsed with
  | some en => !decide (now > en.expiresAt)
  | none => false

/-- A list-shaped response whose `total` field equals the length of its
`result` array. -/
def listTotalConsistent (o : Json) : Prop :=
  ∃ l, o.getField "result" = some (.arr l) ∧
    o.getField "total" = some (.num (Int.ofNat l.length))

/-! ## Concrete instances for witnesses and counterexamples -/

/-- An enabled manager with the default-named cache directory. -/
def cmEnabled : CacheManager :=
  ⟨".eol-cache", "https://endoflife.date/api/v1", true, 3600, 86400⟩

/-- The same manager with caching disabled. -/
def cmDisabled : CacheManager :=
  ⟨".eol-cache", "https://endoflife.date/api/v1", false, 3600, 86400⟩

/-- A manager whose cache directory is not allow-listed for `Clear`. -/
def cmBadDir : CacheManager :=
  ⟨"/home/user/documents", "https://endoflife.date/api/v1", true, 3600, 86400⟩

/-- An empty filesystem: no files, no directories. -/
def emptyFS : FS := ⟨[], []⟩

/-- A stored, decodable entry file expiring at `exp`. -/
def mkEntryFile (exp : Int) (endpoint params : String) (d : Json) : FileData :=
  ⟨100, some ⟨0, exp, endpoint, params, d⟩⟩

/-- A release object of the sample catalogs. -/
def mkRelease (n : String) : Json :=
  .obj [("name", .str n), ("eol", .bool false)]

/-- The full-catalog snapshot of the concrete scenario: products `go`
(releases `1.24`, `1.23`) and `python` (release `3.13`). -/
def catalogC6 : Json :=
  .obj [("schema_version", .str "1.2.0"),
        ("total", .num 2),
        ("result", .arr
          [.obj [("name", .str "go"), ("label", .str "Go"),
                 ("category", .str "lang"),
                 ("tags", .arr [.str "google", .str "lang"]),
                 ("releases", .arr [mkRelease "1.24", mkRelease "1.23"])],
           .obj [("name", .str "python"), ("label", .str "Python"),
                 ("category", .str "lang"),
                 ("releases", .arr [mkRelease "3.13"])]])]

/-- The filesystem of the concrete scenario: only the stored
full-catalog snapshot. -/
def fsC6 : FS := cmEnabled.Set 0 emptyFS "/products/full" catalogC6 []

/-- A one-product catalog used by the specificity counterexample. -/
def catalogGo : Json :=
  .obj [("schema_version", .str "1.2.0"),
        ("result", .arr
          [.obj [("name", .str "go"), ("label", .str "Go"),
                 ("category", .str "lang")]])]

/-- Filesystem holding both an exact entry for
`("/products/go", ["go", "extra"])` and a valid full catalog. -/
def fsC1 : FS :=
  ⟨[(getCacheFilePath cmEnabled (generateCacheKey "/products/go" ["go", "extra"]),
     mkEntryFile 100 "/products/go" "go|extra" (.str "exact-data")),
    (getCacheFilePath cmEnabled (generateCacheKey "/products/full" []),
     mkEntryFile 100 "/products/full" "" catalogGo)],
   [".eol-cache"]⟩

/-- The value `Get` actually returns in the specificity counterexample:
the single-product response derived from the full catalog. -/
def derivedGoC1 : Json :=
  (extractProductFromFull "go" catalogGo).getD .null

/-- The filesystem after caching an identifiers-by-type response the way
the client layer requests it (`params = ["identifier", typ]`). -/
def fsC2 : FS :=
  cmEnabled.Set 0 emptyFS "/identifiers/osx" (.str "id-payload") ["identifier", "osx"]

/-- The filesystem after caching a categories response at time 0. -/
def fsC3 : FS := cmEnabled.Set 0 emptyFS "/categories" (.str "cats") []

/-- A filesystem with both exact `/products` data and a full catalog. -/
def fsC1W : FS :=
  ⟨[(getCacheFilePath cmEnabled (generateCacheKey "/products" []),
     mkEntryFile 100 "/products" "" (.str "exact-products")),
    (getCacheFilePath cmEnabled (generateCacheKey "/products/full" []),
     mkEntryFile 100 "/products/full" "" catalogGo)],
   [".eol-cache"]⟩

/-- A cache directory holding an entry file, an unrelated file, plus a
cache-extension file elsewhere on disk. -/
def fsC7 : FS :=
  ⟨[(".eol-cache/products.eol_cache.json", mkEntryFile 100 "/products" "" (.str "a")),
    (".eol-cache/readme.txt", ⟨5, none⟩),
    ("/other/x.eol_cache.json", mkEntryFile 100 "/x" "" (.str "b"))],
   [".eol-cache"]⟩

/-! ## Helper lemmas -/

/-- A read that reports a hit leaves the filesystem untouched and
returns the stored payload. -/
theorem getRaw_fst_some (cm : CacheManager) (now : Int) (fs : FS) (k : String) (d : Json)
    (h : (getRawCacheByKey cm now fs k).1 = some d) :
    getRawCacheByKey cm now fs k = (some d, fs) := by
  unfold getRawCacheByKey at h ⊢
  cases hl : lookupFile fs (getCacheFilePath cm k) with
  | none => simp [hl] at h
  | some fd =>
    cases hp : fd.parsed with
    | none => simp [hl, hp] at h
    | some entry =>
      by_cases he : now > entry.expiresAt
      · simp [hl, hp, he] at h
      · simp [hl, hp, he] at h ⊢
        exact h

/-- Every strategy list starts with its exact-match candidate. -/
theorem buildCacheStrategies_head_exact (e : String) (ps : List String) :
    ∃ k rest, buildCacheStrategies e ps = (k, Extractor.exact) :: rest := by
  unfold buildCacheStrategies
  repeat' split
  all_goals exact ⟨_, _, rfl⟩

/-- Reading back the path just written. -/
theorem lookup_writeFile_self (fs : FS) (p : String) (fd : FileData) :
    lookupFile (writeFile fs p fd) p = some fd := by
  simp [lookupFile, writeFile, List.lookup]

/-- A removed file is gone. -/
theorem lookup_removeFile_self (fs : FS) (p : String) :
    lookupFile (removeFile fs p) p = none := by
  simp only [lookupFile, removeFile]
  induction fs.files with
  | nil => rfl
  | cons kv t ih =>
    by_cases hk : kv.1 = p
    · simp [List.filter, hk, ih]
    · simp only [List.filter]
      have : (kv.1 != p) = true := by simpa using hk
      simp only [this, List.lookup]
      have : (p == kv.1) = false := by simpa using Ne.symm hk
      simp [this, ih]

/-- Other paths are unaffected by a removal. -/
theorem lookup_removeFile_ne (fs : FS) (p q : String) (h : q ≠ p) :
    lookupFile (removeFile fs p) q = lookupFile fs q := by
  simp only [lookupFile, removeFile]
  have hqp : (q == p) = false := by simpa using h
  induction fs.files with
  | nil => rfl
  | cons kv t ih =>
    by_cases hk : kv.1 = p
    · have hq : (q == kv.1) = false := by simp [hk, h]
      simp [List.filter, hk, List.lookup, hq, hqp, ih]
    · have : (kv.1 != p) = true := by simpa using hk
      by_cases hq : q = kv.1
      · simp [List.filter, this, List.lookup, hq]
      · have hq2 : (q == kv.1) = false := by simpa using hq
        simp [List.filter, this, List.lookup, hq2, ih]

/-- Extraction only reads the manager's base URL; the enabled flag is
irrelevant to it. -/
theorem applyExtractor_enabled (cm : CacheManager) (b : Bool) (ex : Extractor) (d : Json) :
    applyExtractor {cm with enabled := b} ex d = applyExtractor cm ex d := by
  cases ex <;> rfl

/-- The strategy cascade only reads the manager's directory and base
URL; the enabled flag is irrelevant to it. -/
theorem tryStrategies_enabled (cm : CacheManager) (b : Bool) (now : Int) :
    ∀ (l : List (String × Extractor)) (fs : FS),
      tryStrategies {cm with enabled := b} now fs l = tryStrategies cm now fs l := by
  intro l
  induction l with
  | nil => intro fs; rfl
  | cons s rest ih =>
    intro fs
    obtain ⟨key, ex⟩ := s
    have hg : getRawCacheByKey {cm with enabled := b} now fs key =
        getRawCacheByKey cm now fs key := rfl
    simp only [tryStrategies, hg, applyExtractor_enabled, ih]

/-- The `GetStats` scan counts `.json`-named files, and tallies exactly
the decodable ones as expired or valid. -/
theorem statsFold_spec (now : Int) :
    ∀ (l : List (String × FileData)) (s : CacheStats),
      (l.foldl (statsStep now) s).totalFiles = s.totalFiles + l.countP isJsonNamed ∧
      (l.foldl (statsStep now) s).expiredFiles =
        s.expiredFiles + l.countP (fun e => isJsonNamed e && entryExpired now e) ∧
      (l.foldl (statsStep now) s).validFiles =
        s.validFiles + l.countP (fun e => isJsonNamed e && entryValid now e) := by
  intro l
  induction l with
  | nil => intro s; simp
  | cons e t ih =>
    intro s
    obtain ⟨h1, h2, h3⟩ := ih (statsStep now s e)
    simp only [List.foldl_cons, List.countP_cons, h1, h2, h3]
    by_cases hj : strEndsWith e.1 ".json"
    · cases hp : e.2.parsed with
      | none =>
        simp [statsStep, hj, isJsonNamed, entryExpired, entryValid, hp]
        omega
      | some en =>
        by_cases he : now > en.expiresAt
        · simp [statsStep, hj, isJsonNamed, entryExpired, entryValid, hp, he]
          omega
        · simp [statsStep, hj, isJsonNamed, entryExpired, entryValid, hp, he]
          omega
    · simp [statsStep, hj, isJsonNamed, entryExpired, entryValid]

/-- Every success of the single-product scan carries the hard-coded
`last_modified` value. -/
theorem findProductAux_lastModified (sv : Json) (product : String) :
    ∀ (l : List Json) (o : Json), findProductAux sv product l = some o →
      o.getField "last_modified" = some (.str "2025-01-11T00:00:00Z") := by
  intro l
  induction l with
  | nil => intro o h; simp [findProductAux] at h
  | cons p rest ih =>
    intro o h
    rw [findProductAux] at h
    cases hm : productMatch product p with
    | none =>
      rw [hm] at h
      exact ih o h
    | some pf =>
      rw [hm] at h
      injection h with h
      subst h
      rfl

/-- With caching enabled, `Get` is exactly the strategy cascade. -/
theorem Get_enabled (cm : CacheManager) (hen : cm.enabled = true)
    (now : Int) (fs : FS) (e : String) (ps : List String) :
    cm.Get now fs e ps = tryStrategies cm now fs (buildCacheStrategies e ps) := by
  simp [CacheManager.Get, hen]

/-- When the gate passes, `Set` writes one complete envelope under the
endpoint's own key, with `expiresAt = now + ttl`. -/
theorem Set_eq_write (cm : CacheManager) (fs : FS) (t : Int) (e : String)
    (P : Json) (ps : List String) (hgate : (cm.enabled || isFullEndpoint e) = true) :
    cm.Set t fs e P ps =
      writeFile (ensureCacheDir cm fs) (getCacheFilePath cm (generateCacheKey e ps))
        ⟨writtenFileSize ⟨t, t + ttlFor cm e, e, joinPipe ps, P⟩,
         some ⟨t, t + ttlFor cm e, e, joinPipe ps, P⟩⟩ := by
  have hgatef : (!cm.enabled && !isFullEndpoint e) = false := by
    cases h1 : cm.enabled <;> cases h2 : isFullEndpoint e <;> simp_all
  simp [CacheManager.Set, hgatef, ttlFor]

/-- Reading a key freshly written and unexpired returns its payload and
changes nothing. -/
theorem getRaw_write_fresh (cm : CacheManager) (now : Int) (fs : FS) (k : String)
    (fd : FileData) (entry : CacheEntry) (hp : fd.parsed = some entry)
    (hfresh : ¬ now > entry.expiresAt) :
    getRawCacheByKey cm now (writeFile fs (getCacheFilePath cm k) fd) k =
      (some entry.data, writeFile fs (getCacheFilePath cm k) fd) := by
  simp [getRawCacheByKey, lookup_writeFile_self, hp, hfresh]

/-! ## Claim theorems -/

/-- C3: every entry written with TTL `D`, read back strictly after
`write_time + D`, yields not-found and the backing file is removed from
disk (lazy expiry in `getRawCacheByKey`). -/
theorem expiredEntryRemovedOnRead (cm : CacheManager) (fs : FS) (t t' : Int)
    (e : String) (ps : List String) (P : Json)
    (hgate : (cm.enabled || isFullEndpoint e) = true)
    (hexp : t' > t + ttlFor cm e) :
    getRawCacheByKey cm t' (cm.Set t fs e P ps) (generateCacheKey e ps) =
      (none, removeFile (cm.Set t fs e P ps)
        (getCacheFilePath cm (generateCacheKey e ps))) ∧
    lookupFile (removeFile (cm.Set t fs e P ps)
        (getCacheFilePath cm (generateCacheKey e ps)))
      (getCacheFilePath cm (generateCacheKey e ps)) = none := by
  rw [Set_eq_write cm fs t e P ps hgate]
  constructor
  · simp [getRawCacheByKey, lookup_writeFile_self, hexp]
  · exact lookup_removeFile_self _ _

/-- C3 witness: a `/categories` entry written at time 0 with the default
TTL 3600 is gone when read at time 3601. -/
theorem expiredEntryRemovedOnRead_witness :
    getRawCacheByKey cmEnabled 3601 fsC3 (generateCacheKey "/categories" []) =
      (none, removeFile fsC3 (getCacheFilePath cmEnabled (generateCacheKey "/categories" []))) ∧
    lookupFile (removeFile fsC3 (getCacheFilePath cmEnabled (generateCacheKey "/categories" [])))
      (getCacheFilePath cmEnabled (generateCacheKey "/categories" [])) = none :=
  expiredEntryRemovedOnRead cmEnabled emptyFS 0 3601 "/categories" [] (.str "cats")
    (by decide) (by decide)

/-- C5: with the enabled flag false, ordinary endpoints see no-op
`Get`/`Set`; the full-catalog endpoint behaves exactly as if caching
were enabled; and `MustUseCache` is true exactly for that class. -/
theorem disabledCacheGate (cm : CacheManager) (hen : cm.enabled = false)
    (e : String) (now : Int) (fs : FS) (ps : List String) (d : Json) :
    (isFullEndpoint e = false →
      cm.Get now fs e ps = (none, fs) ∧ cm.Set now fs e d ps = fs) ∧
    (isFullEndpoint e = true →
      cm.Get now fs e ps = CacheManager.Get {cm with enabled := true} now fs e ps ∧
      cm.Set now fs e d ps = CacheManager.Set {cm with enabled := true} now fs e d ps) ∧
    (cm.MustUseCache e = true ↔ (e = "/products/full" ∨ e = "products/full")) := by
  refine ⟨fun hf => ⟨?_, ?_⟩, fun hf => ⟨?_, ?_⟩, ?_⟩
  · simp [CacheManager.Get, hen, hf]
  · simp [CacheManager.Set, hen, hf]
  · simp only [CacheManager.Get, hen, hf, Bool.not_false, Bool.not_true, Bool.and_false,
      Bool.false_and, Bool.false_eq_true, if_false]
    exact (tryStrategies_enabled cm true now (buildCacheStrategies e ps) fs).symm
  · simp only [CacheManager.Set, hen, hf, Bool.not_false, Bool.not_true, Bool.and_false,
      Bool.false_and, Bool.false_eq_true, if_false]
    rfl
  · simp [CacheManager.MustUseCache, isFullEndpoint]

/-- C5 witness: the gate at concrete inputs — no-op on `/products`,
full behaviour on `/products/full`, and the `MustUseCache` class. -/
theorem disabledCacheGate_witness :
    (cmDisabled.Get 0 emptyFS "/products" [] = (none, emptyFS) ∧
      cmDisabled.Set 0 emptyFS "/products" (.str "p") [] = emptyFS) ∧
    (cmDisabled.Get 5 fsC6 "/products/full" [] =
        CacheManager.Get {cmDisabled with enabled := true} 5 fsC6 "/products/full" [] ∧
      cmDisabled.Set 5 fsC6 "/products/full" (.str "p") [] =
        CacheManager.Set {cmDisabled with enabled := true} 5 fsC6 "/products/full" (.str "p") []) ∧
    (cmDisabled.MustUseCache "/products/full" = true) :=
  ⟨(disabledCacheGate cmDisabled rfl "/products" 0 emptyFS [] (.str "p")).1 (by decide),
   (disabledCacheGate cmDisabled rfl "/products/full" 5 fsC6 [] (.str "p")).2.1 (by decide),
   ((disabledCacheGate cmDisabled rfl "/products/full" 5 fsC6 [] (.str "p")).2.2).mpr
     (Or.inl rfl)⟩

/-- C6: with only the sample full-catalog snapshot stored, requesting
release `1.23.4` of product `go` succeeds and the extracted release's
name is `1.23`, found via the `normalizeVersion` fallback. -/
theorem releaseNormalizationScenario :
    (cmEnabled.Get 10 fsC6 "/products/go/releases/1.23.4" ["go", "1.23.4"]).1.isSome = true ∧
    ((cmEnabled.Get 10 fsC6 "/products/go/releases/1.23.4" ["go", "1.23.4"]).1.bind
      fun o => (o.getField "result").bind fun r => r.getField "name") =
        some (.str "1.23") ∧
    normalizeVersion "1.23.4" = "1.23" :=
  ⟨rfl, rfl, rfl⟩

/-- C7: `Clear` refuses on a directory whose base name is not
allow-listed and touches nothing; on an allow-listed name it removes
exactly the direct children carrying the cache extension and no
directories. -/
theorem clearSafety (cm : CacheManager) (fs : FS) :
    (([".eol-cache", "eol-cache", "eol"].contains (pathBase cm.baseDir)) = false →
      cm.Clear fs = (some (.refusingToClear (pathBase cm.baseDir)), fs)) ∧
    (([".eol-cache", "eol-cache", "eol"].contains (pathBase cm.baseDir)) = true →
      (cm.Clear fs).1 = none ∧ (cm.Clear fs).2.dirs = fs.dirs ∧
      ∀ p fd, ((p, fd) ∈ (cm.Clear fs).2.files ↔
        ((p, fd) ∈ fs.files ∧ isDirectCacheEntry cm.baseDir p = false))) := by
  constructor
  · intro h
    simp only [CacheManager.Clear, h]
    simp
  · intro h
    simp only [CacheManager.Clear, h]
    refine ⟨by simp, by simp, fun p fd => ?_⟩
    simp [List.mem_filter]

/-- C7 witness: refusal on `/home/user/documents` keeps everything; on
`.eol-cache`, the unrelated file survives while entry files go. -/
theorem clearSafety_witness :
    cmBadDir.Clear fsC7 = (some (.refusingToClear "documents"), fsC7) ∧
    (cmEnabled.Clear fsC7).1 = none ∧
    (((".eol-cache/readme.txt", (⟨5, none⟩ : FileData)) ∈ (cmEnabled.Clear fsC7).2.files) ↔
      (((".eol-cache/readme.txt", (⟨5, none⟩ : FileData)) ∈ fsC7.files) ∧
        isDirectCacheEntry cmEnabled.baseDir ".eol-cache/readme.txt" = false)) ∧
    (((".eol-cache/products.eol_cache.json",
        mkEntryFile 100 "/products" "" (.str "a")) ∈ (cmEnabled.Clear fsC7).2.files) ↔
      (((".eol-cache/products.eol_cache.json",
          mkEntryFile 100 "/products" "" (.str "a")) ∈ fsC7.files) ∧
        isDirectCacheEntry cmEnabled.baseDir ".eol-cache/products.eol_cache.json" = false)) :=
  ⟨(clearSafety cmBadDir fsC7).1 (by decide),
   ((clearSafety cmEnabled fsC7).2 (by decide)).1,
   ((clearSafety cmEnabled fsC7).2 (by decide)).2.2 ".eol-cache/readme.txt" ⟨5, none⟩,
   ((clearSafety cmEnabled fsC7).2 (by decide)).2.2 ".eol-cache/products.eol_cache.json"
     (mkEntryFile 100 "/products" "" (.str "a"))⟩

/-- C10: whenever `extractProductFromFull` succeeds, the derived
response's `last_modified` field is the fixed constant
`2025-01-11T00:00:00Z`, independent of the cached data. -/
theorem lastModifiedConstant (product : String) (d o : Json)
    (h : extractProductFromFull product d = some o) :
    o.getField "last_modified" = some (.str "2025-01-11T00:00:00Z") := by
  simp only [extractProductFromFull, Option.bind_eq_some] at h
  obtain ⟨fields, _, result, _, h⟩ := h
  exact findProductAux_lastModified _ _ _ _ h

/-- C10 witness: the product `go` extracted from the sample catalog
carries the constant `last_modified`. -/
theorem lastModifiedConstant_witness :
    Json.getField ((extractProductFromFull "go" catalogC6).getD .null) "last_modified" =
      some (.str "2025-01-11T00:00:00Z") :=
  lastModifiedConstant "go" catalogC6 ((extractProductFromFull "go" catalogC6).getD .null) rfl

/-- C1 (amended): with caching enabled and a canonical parameter list,
when a valid exact entry for `(endpoint, params)` and a valid
full-catalog entry are both present, `Get` returns the exact entry's
stored data — the head of the strategy list is the exact key with the
identity extractor and `tryStrategies` stops at the first hit. -/
theorem specificityWins (cm : CacheManager) (now : Int) (fs : FS) (e : String)
    (ps : List String) (d dfull : Json)
    (hen : cm.enabled = true)
    (hcanon : canonicalQuery e ps)
    (_hfull : (getRawCacheByKey cm now fs (generateCacheKey "/products/full" [])).1 = some dfull)
    (hexact : (getRawCacheByKey cm now fs (generateCacheKey e ps)).1 = some d) :
    (cm.Get now fs e ps).1 = some d := by
  obtain ⟨k, rest, hb⟩ := buildCacheStrategies_head_exact e ps
  have hk : k = generateCacheKey e ps := by
    unfold canonicalQuery at hcanon
    rw [hb] at hcanon
    simpa using hcanon
  subst hk
  have hresult := getRaw_fst_some cm now fs _ d hexact
  rw [Get_enabled cm hen, hb]
  simp only [tryStrategies, hresult]
  rfl

/-- C1 witness: with both an exact `/products` entry and a full catalog
valid on disk, `Get` returns the exact entry's data. -/
theorem specificityWins_witness :
    (cmEnabled.Get 50 fsC1W "/products" []).1 = some (.str "exact-products") :=
  specificityWins cmEnabled 50 fsC1W "/products" [] (.str "exact-products") catalogGo
    rfl rfl rfl rfl

/-- C1 counterexample: for the non-canonical pair
`("/products/go", ["go", "extra"])` both an exact entry (with payload
`"exact-data"`) and a valid full catalog are present and unexpired, yet
`Get` returns the response derived from the broader full-catalog entry,
not the exact entry's stored data. -/
theorem specificityWins_counterexample :
    (getRawCacheByKey cmEnabled 50 fsC1 (generateCacheKey "/products/go" ["go", "extra"])).1 =
      some (.str "exact-data") ∧
    (getRawCacheByKey cmEnabled 50 fsC1 (generateCacheKey "/products/full" [])).1 =
      some catalogGo ∧
    (cmEnabled.Get 50 fsC1 "/products/go" ["go", "extra"]).1 = some derivedGoC1 ∧
    derivedGoC1 ≠ .str "exact-data" := by
  refine ⟨rfl, rfl, rfl, ?_⟩
  intro h
  exact Json.noConfusion h

/-- C2 (amended): with caching enabled and a canonical parameter list,
`Set` followed by `Get` within the TTL returns the stored payload and
found. -/
theorem setGetRoundTrip (cm : CacheManager) (fs : FS) (t t' : Int) (e : String)
    (ps : List String) (P : Json)
    (hen : cm.enabled = true)
    (hcanon : canonicalQuery e ps)
    (hfresh : t' ≤ t + ttlFor cm e) :
    (cm.Get t' (cm.Set t fs e P ps) e ps).1 = some P := by
  obtain ⟨k, rest, hb⟩ := buildCacheStrategies_head_exact e ps
  have hk : k = generateCacheKey e ps := by
    unfold canonicalQuery at hcanon
    rw [hb] at hcanon
    simpa using hcanon
  subst hk
  rw [Get_enabled cm hen, Set_eq_write cm fs t e P ps (by rw [hen]; rfl), hb]
  simp only [tryStrategies]
  rw [getRaw_write_fresh cm t' (ensureCacheDir cm fs) (generateCacheKey e ps)
    _ ⟨t, t + ttlFor cm e, e, joinPipe ps, P⟩ rfl (Int.not_lt.mpr hfresh)]
  rfl

/-- C2 witness: round-trip at a concrete canonical query. -/
theorem setGetRoundTrip_witness :
    (cmEnabled.Get 10 (cmEnabled.Set 0 emptyFS "/products" (.str "v") []) "/products" []).1 =
      some (.str "v") :=
  setGetRoundTrip cmEnabled emptyFS 0 10 "/products" [] (.str "v") rfl rfl (by decide)

/-- C2 counterexample: caching a response for
`("/identifiers/osx", ["identifier", "osx"])` — the exact parameter
shape the client layer uses — writes an entry file, yet an immediate
`Get` for the same pair misses: the default strategy branch derives its
exact key without the parameters, so the written key is never probed. -/
theorem setGetRoundTrip_counterexample :
    (lookupFile fsC2 (getCacheFilePath cmEnabled
      (generateCacheKey "/identifiers/osx" ["identifier", "osx"]))).isSome = true ∧
    (cmEnabled.Get 1 fsC2 "/identifiers/osx" ["identifier", "osx"]).1 = none :=
  ⟨rfl, rfl⟩

/-- C4 (amended): the key is a pure function of the endpoint and the
pipe-joined parameter string — parameter lists with equal joins collide
by construction, and distinct joins give distinct keys exactly when
their truncated MD5 digests differ. -/
theorem generateCacheKeyDeterminism (e : String) (ps1 ps2 : List String)
    (h1 : ps1 ≠ []) (h2 : ps2 ≠ []) :
    (joinPipe ps1 = joinPipe ps2 → generateCacheKey e ps1 = generateCacheKey e ps2) ∧
    (strTake (md5hex (joinPipe ps1)) 8 ≠ strTake (md5hex (joinPipe ps2)) 8 →
      generateCacheKey e ps1 ≠ generateCacheKey e ps2) := by
  have e1 : ps1.isEmpty = false := by cases ps1 <;> simp_all
  have e2 : ps2.isEmpty = false := by cases ps2 <;> simp_all
  constructor
  · intro hj
    simp [generateCacheKey, e1, e2, hj]
  · intro hh hkeys
    simp only [generateCacheKey, e1, e2, Bool.false_eq_true, if_false] at hkeys
    apply hh
    have hd := congrArg String.data hkeys
    simp only [String.data_append] at hd
    have hc1 := List.append_cancel_right hd
    have hc2 := List.append_cancel_left hc1
    exact congrArg String.mk hc2

/-- C4 witness: lists with the same pipe-join share a key; lists whose
truncated hashes differ get different keys. -/
theorem generateCacheKeyDeterminism_witness :
    generateCacheKey "/x" ["a|b"] = generateCacheKey "/x" ["a", "b"] ∧
    generateCacheKey "/x" ["a"] ≠ generateCacheKey "/x" ["b"] :=
  ⟨(generateCacheKeyDeterminism "/x" ["a|b"] ["a", "b"] (by decide) (by decide)).1 (by decide),
   (generateCacheKeyDeterminism "/x" ["a"] ["b"] (by decide) (by decide)).2 (by decide)⟩

/-- C4 counterexample: the distinct parameter lists `["a|b"]` and
`["a", "b"]` (same endpoint) produce the identical key, because keys
hash only the pipe-joined concatenation. -/
theorem generateCacheKeyDeterminism_counterexample :
    generateCacheKey "/x" ["a|b"] = generateCacheKey "/x" ["a", "b"] ∧
    (["a|b"] : List String) ≠ ["a", "b"] :=
  ⟨rfl, by decide⟩

/-- C8 (amended): `GetStats` never touches any file, but it creates the
cache directory when absent; its counts classify exactly the decodable
`.json` entries as expired or valid by comparing `expiresAt` with now,
and count undecodable files only in the total. -/
theorem getStatsFrame (cm : CacheManager) (now : Int) (fs : FS) :
    (cm.GetStats now fs).2.files = fs.files ∧
    (cm.GetStats now fs).2.dirs =
      (if fs.dirs.contains cm.baseDir then fs.dirs else cm.baseDir :: fs.dirs) ∧
    (cm.GetStats now fs).1.totalFiles =
      (dirEntriesNamed (ensureCacheDir cm fs) cm.baseDir).countP isJsonNamed ∧
    (cm.GetStats now fs).1.expiredFiles =
      (dirEntriesNamed (ensureCacheDir cm fs) cm.baseDir).countP
        (fun e => isJsonNamed e && entryExpired now e) ∧
    (cm.GetStats now fs).1.validFiles =
      (dirEntriesNamed (ensureCacheDir cm fs) cm.baseDir).countP
        (fun e => isJsonNamed e && entryValid now e) := by
  obtain ⟨h1, h2, h3⟩ := statsFold_spec now (dirEntriesNamed (ensureCacheDir cm fs) cm.baseDir)
    { cacheDir := cm.baseDir, defaultTTL := cm.defaultTTL, fullTTL := cm.fullTTL,
      totalSize := 0, totalFiles := 0, expiredFiles := 0, validFiles := 0,
      enabled := cm.enabled }
  refine ⟨?_, ?_, ?_, ?_, ?_⟩
  · simp only [CacheManager.GetStats, ensureCacheDir]
    by_cases hc : cm.baseDir ∈ fs.dirs <;> simp [hc]
  · simp only [CacheManager.GetStats, ensureCacheDir]
    by_cases hc : cm.baseDir ∈ fs.dirs <;> simp [hc]
  · simpa using h1
  · simpa using h2
  · simpa using h3

/-- C8 counterexample: on a filesystem without the cache directory,
`GetStats` creates it — the filesystem is not left exactly as it was. -/
theorem getStatsFrame_counterexample :
    emptyFS.dirs = [] ∧
    (cmEnabled.GetStats 0 emptyFS).2.dirs = [".eol-cache"] ∧
    (cmEnabled.GetStats 0 emptyFS).2 ≠ emptyFS := by
  refine ⟨rfl, rfl, fun h => ?_⟩
  exact absurd (congrArg FS.dirs h) (by decide)

/-- C9: every list-shaped payload synthesized from the full catalog —
products summary, categories, tags, products-by-category,
products-by-tag — carries `total` equal to the length of its `result`
array. -/
theorem derivedListTotals (baseURL : String) (d : Json) (cat tag : String)
    (o1 o2 o3 o4 o5 : Json)
    (h1 : extractProductsFromFull baseURL d = some o1)
    (h2 : extractCategoriesFromFull baseURL d = some o2)
    (h3 : extractTagsFromFull baseURL d = some o3)
    (h4 : extractProductsByCategoryFromFull baseURL cat d = some o4)
    (h5 : extractProductsByTagFromFull baseURL tag d = some o5) :
    listTotalConsistent o1 ∧ listTotalConsistent o2 ∧ listTotalConsistent o3 ∧
      listTotalConsistent o4 ∧ listTotalConsistent o5 := by
  refine ⟨?_, ?_, ?_, ?_, ?_⟩
  · simp only [extractProductsFromFull, Option.bind_eq_some] at h1
    obtain ⟨fields, _, result, _, h1⟩ := h1
    injection h1 with h1
    subst h1
    exact ⟨_, rfl, rfl⟩
  · simp only [extractCategoriesFromFull, Option.bind_eq_some] at h2
    obtain ⟨fields, _, result, _, h2⟩ := h2
    injection h2 with h2
    subst h2
    exact ⟨_, rfl, rfl⟩
  · simp only [extractTagsFromFull, Option.bind_eq_some] at h3
    obtain ⟨fields, _, result, _, h3⟩ := h3
    injection h3 with h3
    subst h3
    exact ⟨_, rfl, rfl⟩
  · simp only [extractProductsByCategoryFromFull, Option.bind_eq_some] at h4
    obtain ⟨fields, _, result, _, h4⟩ := h4
    injection h4 with h4
    subst h4
    exact ⟨_, rfl, rfl⟩
  · simp only [extractProductsByTagFromFull, Option.bind_eq_some] at h5
    obtain ⟨fields, _, result, _, h5⟩ := h5
    injection h5 with h5
    subst h5
    exact ⟨_, rfl, rfl⟩

/-- C9 witness: all five list extractors applied to the sample catalog
produce totals equal to their result lengths. -/
theorem derivedListTotals_witness :
    listTotalConsistent ((extractProductsFromFull cmEnabled.baseURL catalogC6).getD .null) ∧
    listTotalConsistent ((extractCategoriesFromFull cmEnabled.baseURL catalogC6).getD .null) ∧
    listTotalConsistent ((extractTagsFromFull cmEnabled.baseURL catalogC6).getD .null) ∧
    listTotalConsistent
      ((extractProductsByCategoryFromFull cmEnabled.baseURL "lang" catalogC6).getD .null) ∧
    listTotalConsistent
      ((extractProductsByTagFromFull cmEnabled.baseURL "google" catalogC6).getD .null) :=
  derivedListTotals cmEnabled.baseURL catalogC6 "lang" "google" _ _ _ _ _
    rfl rfl rfl rfl rfl
